import Mathlib

/-!
Devil's Dozen — engine verification.

A shallow embedding of the stateless dice-game scoring engines of the
Devil's Dozen repository (`src/engine/`): the Peasant's Gamble D6 engine,
the Alchemist's Ascent D20 engine, the Knucklebones placement engine and
the Alien Invasion set-collection engine.  Each Python method is translated
into an executable Lean function over `List Nat` dice values; Python
exceptions are modelled with `Option` (a raise becomes `none`), Python
`frozenset`s of indices become `Finset Nat`, and the `DiceRoll`
constructor's value-range validation becomes a hypothesis on theorems.
-/

set_option linter.unusedVariables false

/-- Categories of scoring combinations (`ScoringCategory` in `base.py`). -/
inductive ScoringCategory where
  | single_one
  | single_five
  | three_of_a_kind
  | four_of_a_kind
  | five_of_a_kind
  | six_of_a_kind
  | low_straight
  | high_straight
  | full_straight
  | pair
  | sequence
  | tier_bonus
  deriving DecidableEq

/-- One scoring component within a roll (`ScoringBreakdown` in `base.py`). -/
structure ScoringBreakdown where
  category : ScoringCategory
  dice_values : List Nat
  points : Nat
  description : String
  deriving DecidableEq

/-- Complete scoring result for a dice roll (`ScoringResult` in `base.py`). -/
structure ScoringResult where
  points : Nat
  breakdown : List ScoringBreakdown
  scoring_dice_indices : Finset Nat
  is_bust : Bool
  deriving DecidableEq

/-- Tiers for Alchemist's Ascent (`Tier` in `base.py`). -/
inductive Tier where
  | red
  | green
  | blue
  deriving DecidableEq

/-- A player's turn state (`TurnState` in `base.py`).  The constructor
defaults of the Python dataclass (`tier=RED`, `previous_dice=()`) matter:
the Peasant's Gamble engine builds new `TurnState` values without passing
those fields. -/
structure TurnState where
  active_dice : List Nat
  held_indices : Finset Nat
  turn_score : Nat
  roll_count : Nat
  is_hot_dice : Bool
  tier : Tier := Tier.red
  previous_dice : List Nat := []
  deriving DecidableEq

/-- The `DiceRoll.__post_init__` validation: every value lies in
`[1, kind_max]`. -/
abbrev validDice (kindMax : Nat) (values : List Nat) : Prop :=
  ∀ v ∈ values, 1 ≤ v ∧ v ≤ kindMax

namespace PeasantsGambleEngine

/-- Python `_find_indices_for_values`: scan the enumerated dice left to right,
claiming one index for each still-needed target value (the mutable
`targets_needed` list loses its first matching occurrence each time). -/
def find_values_aux (vals : List Nat) (start : Nat) (targets : List Nat)
    (acc : Finset Nat) : Finset Nat :=
  match vals with
  | [] => acc
  | v :: rest =>
    if v ∈ targets ∧ start ∉ acc then
      find_values_aux rest (start + 1) (targets.erase v) (insert start acc)
    else
      find_values_aux rest (start + 1) targets acc

/-- Python `_find_indices_for_values(values, target_values)`. -/
def find_indices_for_values (values : List Nat) (targets : List Nat) : Finset Nat :=
  find_values_aux values 0 targets ∅

/-- Python `_find_indices_for_value`: scan left to right collecting up to `cnt`
indices whose value equals `target`, skipping excluded indices. -/
def find_value_aux (vals : List Nat) (start : Nat) (target cnt : Nat)
    (exclude : Finset Nat) (found : Nat) (acc : Finset Nat) : Finset Nat :=
  match vals with
  | [] => acc
  | v :: rest =>
    if v = target ∧ start ∉ exclude ∧ found < cnt then
      find_value_aux rest (start + 1) target cnt exclude (found + 1) (insert start acc)
    else
      find_value_aux rest (start + 1) target cnt exclude found acc

/-- Python `_find_indices_for_value(values, target, count, exclude)`. -/
def find_indices_for_value (values : List Nat) (target cnt : Nat)
    (exclude : Finset Nat) : Finset Nat :=
  find_value_aux values 0 target cnt exclude 0 ∅

/-- The `Counter(values)` multiset of remaining dice, as a count function. -/
def countOf (values : List Nat) : Nat → Nat := fun v => values.count v

/-- Python `_check_straights(values, remaining)`: full straight (all six faces,
exactly six dice), else high straight 2-6, else low straight 1-5.  Returns
the optional breakdown line with its index set, plus the updated remaining
counts (the Python code mutates the counter in place). -/
def check_straights (values : List Nat) (r : Nat → Nat) :
    Option (ScoringBreakdown × Finset Nat) × (Nat → Nat) :=
  if values.toFinset = ({1, 2, 3, 4, 5, 6} : Finset Nat) ∧ values.length = 6 then
    (some (⟨ScoringCategory.full_straight, [1, 2, 3, 4, 5, 6], 1500,
        "Full Straight (1-2-3-4-5-6)"⟩, Finset.range 6),
      fun v => if v ∈ [1, 2, 3, 4, 5, 6] then r v - 1 else r v)
  else if ([2, 3, 4, 5, 6].all fun v => 1 ≤ r v) ∧
      (find_indices_for_values values [2, 3, 4, 5, 6]).card = 5 then
    (some (⟨ScoringCategory.high_straight, [2, 3, 4, 5, 6], 750,
        "High Straight (2-3-4-5-6)"⟩, find_indices_for_values values [2, 3, 4, 5, 6]),
      fun v => if v ∈ [2, 3, 4, 5, 6] then r v - 1 else r v)
  else if ([1, 2, 3, 4, 5].all fun v => 1 ≤ r v) ∧
      (find_indices_for_values values [1, 2, 3, 4, 5]).card = 5 then
    (some (⟨ScoringCategory.low_straight, [1, 2, 3, 4, 5], 500,
        "Low Straight (1-2-3-4-5)"⟩, find_indices_for_values values [1, 2, 3, 4, 5]),
      fun v => if v ∈ [1, 2, 3, 4, 5] then r v - 1 else r v)
  else
    (none, r)

/-- The category chosen by `_check_sets` for an N-of-a-kind. -/
def setCategory (count : Nat) : ScoringCategory :=
  if count = 3 then ScoringCategory.three_of_a_kind
  else if count = 4 then ScoringCategory.four_of_a_kind
  else if count = 5 then ScoringCategory.five_of_a_kind
  else ScoringCategory.six_of_a_kind

/-- Python `_check_sets(values, remaining)`: iterate the faces 1..6 in order;
any face with remaining count `>= 3` scores `base * 2^(count-3)` where
`base = 1000` for face 1 and `face * 100` otherwise, consuming all those
dice (its remaining count is zeroed). -/
def check_sets (values : List Nat) :
    List Nat → (Nat → Nat) → List ScoringBreakdown × Finset Nat × (Nat → Nat)
  | [], r => ([], ∅, r)
  | f :: rest, r =>
    let c := r f
    if 3 ≤ c then
      let base := if f = 1 then 1000 else f * 100
      let line : ScoringBreakdown :=
        ⟨setCategory c, List.replicate c f, base * 2 ^ (c - 3),
          toString c ++ "x " ++ toString f ++ "s"⟩
      let idx := find_indices_for_value values f c ∅
      let res := check_sets values rest (fun v => if v = f then 0 else r v)
      (line :: res.1, idx ∪ res.2.1, res.2.2)
    else
      check_sets values rest r

/-- Python `_check_singles(values, remaining)`: leftover 1s score 100 each,
leftover 5s score 50 each; the 5s index search excludes the indices the
1s search claimed (the Python code passes its local `indices` set). -/
def check_singles (values : List Nat) (r : Nat → Nat) :
    List ScoringBreakdown × Finset Nat :=
  let onesCount := r 1
  let onesPart : List ScoringBreakdown × Finset Nat :=
    if 0 < onesCount then
      ([⟨ScoringCategory.single_one, List.replicate onesCount 1, onesCount * 100,
          toString onesCount ++ "x Single 1" ++ (if 1 < onesCount then "s" else "")⟩],
        find_indices_for_value values 1 onesCount ∅)
    else ([], ∅)
  let fivesCount := r 5
  let fivesPart : List ScoringBreakdown × Finset Nat :=
    if 0 < fivesCount then
      ([⟨ScoringCategory.single_five, List.replicate fivesCount 5, fivesCount * 50,
          toString fivesCount ++ "x Single 5" ++ (if 1 < fivesCount then "s" else "")⟩],
        find_indices_for_value values 5 fivesCount onesPart.2)
    else ([], ∅)
  (onesPart.1 ++ fivesPart.1, onesPart.2 ∪ fivesPart.2)

/-- Python `PeasantsGambleEngine.calculate_score(dice)`: straights first, then
sets, then leftover singles; total is the sum of the breakdown lines and
the roll busts iff no die scored. -/
def calculate_score (values : List Nat) : ScoringResult :=
  if values = [] then ⟨0, [], ∅, true⟩
  else
    let s := check_straights values (countOf values)
    let straightLines : List ScoringBreakdown :=
      match s.1 with
      | some p => [p.1]
      | none => []
    let straightIdx : Finset Nat :=
      match s.1 with
      | some p => p.2
      | none => ∅
    let sets := check_sets values [1, 2, 3, 4, 5, 6] s.2
    let singles := check_singles values sets.2.2
    let breakdown := straightLines ++ sets.1 ++ singles.1
    let idx := straightIdx ∪ sets.2.1 ∪ singles.2
    ⟨(breakdown.map fun b => b.points).sum, breakdown, idx, idx.card == 0⟩

/-- Python `is_hot_dice`: every die position scored (empty rolls are never hot). -/
def is_hot_dice (values : List Nat) : Bool :=
  if values = [] then false
  else (calculate_score values).scoring_dice_indices.card == values.length

/-- Python `PeasantsGambleEngine.process_roll(state, roll)` with an injected roll
(the RNG path is not modelled).  A bust zeroes the turn score and clears
the held indices; otherwise held indices are reset for the new roll and
the accumulated turn score is kept. -/
def process_roll (state : TurnState) (roll : List Nat) : TurnState × ScoringResult :=
  let result := calculate_score roll
  if result.is_bust then
    (⟨roll, ∅, 0, state.roll_count + 1, false, Tier.red, []⟩, result)
  else
    (⟨roll, ∅, state.turn_score, state.roll_count + 1, is_hot_dice roll, Tier.red, []⟩,
      result)

/-- Python `PeasantsGambleEngine.create_initial_turn_state()`. -/
def create_initial_turn_state : TurnState :=
  ⟨[], ∅, 0, 0, false, Tier.red, []⟩

/-- The dice values at the (sorted) selected indices,
`tuple(state.active_dice[i] for i in sorted(indices))`. -/
def held_values (state : TurnState) (indices : Finset Nat) : List Nat :=
  (indices.sort (· ≤ ·)).map fun i => state.active_dice.getD i 0

/-- Python `PeasantsGambleEngine.process_hold(state, indices_to_hold)`:
`validate_held_indices` rejects out-of-range indices, holding dice whose
combined values do not score raises, otherwise all selected indices are
held and the held dice's score is added to the turn score. -/
def process_hold (state : TurnState) (indices : Finset Nat) :
    Option (TurnState × ScoringResult) :=
  if ¬ (∀ i ∈ indices, i < state.active_dice.length) then none
  else
    let result := calculate_score (held_values state indices)
    if result.is_bust then none
    else
      let newHeld := state.held_indices ∪ indices
      some (⟨state.active_dice, newHeld, state.turn_score + result.points,
        state.roll_count, newHeld.card == state.active_dice.length, Tier.red, []⟩,
        result)

end PeasantsGambleEngine

/-- Result of a single die reroll in Tier 2 (`RerollResult` in
`alchemists_ascent.py`). -/
structure RerollResult where
  old_value : Nat
  new_value : Nat
  is_bust : Bool
  points_if_not_bust : Nat
  deriving DecidableEq

namespace AlchemistsAscentEngine

/-- Python `_find_indices_for_value` (identical to the Peasant's Gamble helper). -/
def find_indices_for_value (values : List Nat) (target cnt : Nat)
    (exclude : Finset Nat) : Finset Nat :=
  PeasantsGambleEngine.find_indices_for_value values target cnt exclude

/-- Python `_find_indices_for_sequence` (identical algorithm to
`_find_indices_for_values`). -/
def find_indices_for_sequence (values : List Nat) (seq : List Nat) : Finset Nat :=
  PeasantsGambleEngine.find_indices_for_values values seq

/-- Walk a list keeping only first occurrences, given the values already
seen. -/
def counterKeysAux : List Nat → List Nat → List Nat
  | [], _ => []
  | v :: rest, seen =>
    if v ∈ seen then counterKeysAux rest seen
    else v :: counterKeysAux rest (v :: seen)

/-- The distinct values of a list in first-occurrence order: `Counter`
keys iterate in insertion order in Python. -/
def counterKeys (l : List Nat) : List Nat := counterKeysAux l []

/-- Insert into a sorted list (ascending). -/
def insertSorted (x : Nat) : List Nat → List Nat
  | [] => [x]
  | y :: ys => if x ≤ y then x :: y :: ys else y :: insertSorted x ys

/-- Python `sorted(...)` on a list of naturals. -/
def sortNat (l : List Nat) : List Nat := l.foldr insertSorted []

/-- Walk the (strictly increasing) tail, extending the current run `cur`
(kept reversed) while the next value is the successor of `prev`, closing
the run otherwise — the inner `while` loop of `_check_sequences`. -/
def runsAux (cur : List Nat) (prev : Nat) : List Nat → List (List Nat)
  | [] => [cur.reverse]
  | x :: xs =>
    if x = prev + 1 then runsAux (x :: cur) x xs
    else cur.reverse :: runsAux [x] x xs

/-- Split a strictly increasing list into its maximal runs of consecutive
values — the `while` loops of `_check_sequences`. -/
def runsOf : List Nat → List (List Nat)
  | [] => []
  | x :: xs => runsAux [x] x xs

/-- Python `_check_sequences`, processing the maximal runs in ascending order:
a run of length `>= 3` scores `10 * (length - 2)`, consumes one die per
run value (decrementing its remaining count, dropping the counter key of
a value whose count reaches zero), and claims one index per value. -/
def check_sequences_fold (values : List Nat) :
    List (List Nat) → (Nat → Nat) → List Nat →
      List ScoringBreakdown × Finset Nat × (Nat → Nat) × List Nat
  | [], r, ks => ([], ∅, r, ks)
  | run :: rest, r, ks =>
    if 3 ≤ run.length then
      let line : ScoringBreakdown :=
        ⟨ScoringCategory.sequence, run, 10 * (run.length - 2),
          "Sequence " ++ toString (run.headD 0) ++ "-" ++ toString (run.getLastD 0)⟩
      let idx := find_indices_for_sequence values run
      let r' := fun v => if v ∈ run then r v - 1 else r v
      let ks' := ks.filter fun v => ¬ (v ∈ run ∧ r v - 1 = 0)
      let res := check_sequences_fold values rest r' ks'
      (line :: res.1, idx ∪ res.2.1, res.2.2)
    else
      check_sequences_fold values rest r ks

/-- Python `_check_sets_tier1`, iterating `list(remaining.keys())` (first
occurrence order, minus keys deleted by the sequence pass): a face with
count `>= 3` scores `10 * 2^(count-2)` for 1s, `20 * 2^(count-2)` for 5s
and `face * count` otherwise; a pair scores 10 for 1s, 20 for 5s and the
face value otherwise. -/
def check_sets_tier1_fold (values : List Nat) :
    List Nat → (Nat → Nat) → List ScoringBreakdown × Finset Nat × (Nat → Nat)
  | [], r => ([], ∅, r)
  | f :: rest, r =>
    let c := r f
    if 3 ≤ c then
      let pts := if f = 1 then 10 * 2 ^ (c - 2) else if f = 5 then 20 * 2 ^ (c - 2)
        else f * c
      let line : ScoringBreakdown :=
        ⟨ScoringCategory.three_of_a_kind, List.replicate c f, pts,
          toString c ++ "× " ++ toString f ++ "s"⟩
      let idx := find_indices_for_value values f c ∅
      let res := check_sets_tier1_fold values rest (fun v => if v = f then 0 else r v)
      (line :: res.1, idx ∪ res.2.1, res.2.2)
    else if c = 2 then
      let pts := if f = 1 then 10 else if f = 5 then 20 else f
      let line : ScoringBreakdown :=
        ⟨ScoringCategory.pair, [f, f], pts, "Pair of " ++ toString f ++ "s"⟩
      let idx := find_indices_for_value values f 2 ∅
      let res := check_sets_tier1_fold values rest (fun v => if v = f then 0 else r v)
      (line :: res.1, idx ∪ res.2.1, res.2.2)
    else
      check_sets_tier1_fold values rest r

/-- Python `_check_singles_tier1`: exactly one leftover 1 scores 1 point and
exactly one leftover 5 scores 5 points. -/
def check_singles_tier1 (values : List Nat) (r : Nat → Nat) :
    List ScoringBreakdown × Finset Nat :=
  let onesPart : List ScoringBreakdown × Finset Nat :=
    if r 1 = 1 then
      ([⟨ScoringCategory.single_one, [1], 1, "Single 1"⟩],
        find_indices_for_value values 1 1 ∅)
    else ([], ∅)
  let fivesPart : List ScoringBreakdown × Finset Nat :=
    if r 5 = 1 then
      ([⟨ScoringCategory.single_five, [5], 5, "Single 5"⟩],
        find_indices_for_value values 5 1 ∅)
    else ([], ∅)
  (onesPart.1 ++ fivesPart.1, onesPart.2 ∪ fivesPart.2)

/-- Python `AlchemistsAscentEngine.calculate_score_tier1(dice)`: sequences, then
sets, then singles; busts iff the total is zero. -/
def calculate_score_tier1 (values : List Nat) : ScoringResult :=
  if values = [] then ⟨0, [], ∅, true⟩
  else
    let r0 : Nat → Nat := fun v => values.count v
    let ks0 := counterKeys values
    let seq := check_sequences_fold values (runsOf (sortNat ks0)) r0 ks0
    let sets := check_sets_tier1_fold values seq.2.2.2 seq.2.2.1
    let singles := check_singles_tier1 values sets.2.2
    let breakdown := seq.1 ++ sets.1 ++ singles.1
    let idx := seq.2.1 ∪ sets.2.1 ∪ singles.2
    let pts := (breakdown.map fun b => b.points).sum
    ⟨pts, breakdown, idx, pts == 0⟩

/-- Python `AlchemistsAscentEngine.calculate_score_tier2(dice)`: Tier-1 scoring
with every line and the total multiplied by 5; never busts on a roll. -/
def calculate_score_tier2 (values : List Nat) : ScoringResult :=
  let base := calculate_score_tier1 values
  ⟨base.points * 5,
    base.breakdown.map fun b =>
      ⟨b.category, b.dice_values, b.points * 5, b.description ++ " (×5)"⟩,
    base.scoring_dice_indices, false⟩

/-- Python `AlchemistsAscentEngine.calculate_score_tier3(dice_value,
current_score, last_place_player_id)`: returns
`(points_delta, is_reset, is_kingmaker, beneficiary_id)`. -/
def calculate_score_tier3 (dice_value : Nat) (current_score : Nat)
    (last_place_player_id : Option String) : Int × Bool × Bool × Option String :=
  if dice_value = 1 then (-(current_score : Int), true, false, none)
  else if dice_value = 20 then (0, false, true, last_place_player_id)
  else ((dice_value : Int), false, false, none)

/-- Python `AlchemistsAscentEngine.process_reroll(die_index, previous_values,
new_value)` with an injected new value; an out-of-range index raises
(`none`).  The reroll busts iff `new_value <= old_value`, and a non-bust
reroll's points are the new face value times the Tier-2 multiplier 5. -/
def process_reroll (die_index : Nat) (previous_values : List Nat)
    (new_value : Nat) : Option RerollResult :=
  match previous_values[die_index]? with
  | none => none
  | some old_value =>
    let b := decide (new_value ≤ old_value)
    some ⟨old_value, new_value, b, if b then 0 else new_value * 5⟩

end AlchemistsAscentEngine

/-- A player's 3×3 Knucklebones grid (`GridState` in `knucklebones.py`):
three columns of up to three dice each, bottom to top. -/
structure GridState where
  col0 : List Nat
  col1 : List Nat
  col2 : List Nat
  deriving DecidableEq

/-- Reading `columns[i]` on a grid (column indices are 0-2). -/
def GridState.getCol (g : GridState) (i : Nat) : List Nat :=
  if i = 0 then g.col0 else if i = 1 then g.col1 else g.col2

/-- Replace `columns[i]` of a grid. -/
def GridState.setCol (g : GridState) (i : Nat) (c : List Nat) : GridState :=
  if i = 0 then ⟨c, g.col1, g.col2⟩
  else if i = 1 then ⟨g.col0, c, g.col2⟩
  else ⟨g.col0, g.col1, c⟩

/-- Result of placing a die (`PlacementResult` in `knucklebones.py`). -/
structure PlacementResult where
  player_grid : GridState
  opponent_grid : GridState
  player_score_delta : Int
  opponent_score_delta : Int
  destroyed_count : Nat
  column_index : Nat
  deriving DecidableEq

namespace KnuckleboneEngine

/-- Distinct values of a column in first-occurrence order (`Counter`
iteration order). -/
def counterKeys : List Nat → List Nat := AlchemistsAscentEngine.counterKeys

/-- Python `KnuckleboneEngine.calculate_column_score(column)`: per face value,
a triple scores `(f*3)*3`, a pair `(f*2)*2` and a single `f`. -/
def calculate_column_score (column : List Nat) : Nat :=
  (counterKeys column).foldl
    (fun total f =>
      let c := column.count f
      total + (if c = 3 then f * 3 * 3 else if c = 2 then f * 2 * 2 else f))
    0

/-- Python `KnuckleboneEngine.calculate_grid_score(grid)`. -/
def calculate_grid_score (g : GridState) : Nat :=
  calculate_column_score g.col0 + calculate_column_score g.col1 +
    calculate_column_score g.col2

/-- Python `KnuckleboneEngine.place_die(die_value, column_index, player_grid,
opponent_grid)`: validates the die value (1-6), the column index (0-2)
and that the player's column is not full; appends the die to the player's
column, removes every matching die from the opponent's same column ("the
crunch"), and reports score deltas (after minus before) plus the
destroyed-dice count.  A `ValueError` is `none`. -/
def place_die (die_value column_index : Nat)
    (player_grid opponent_grid : GridState) : Option PlacementResult :=
  if ¬ (1 ≤ die_value ∧ die_value ≤ 6) then none
  else if ¬ column_index < 3 then none
  else if (player_grid.getCol column_index).length = 3 then none
  else
    let player_score_before := calculate_column_score (player_grid.getCol column_index)
    let opponent_score_before := calculate_column_score (opponent_grid.getCol column_index)
    let new_player_column := player_grid.getCol column_index ++ [die_value]
    let new_player_grid := player_grid.setCol column_index new_player_column
    let opponent_column := opponent_grid.getCol column_index
    let destroyed_count := opponent_column.count die_value
    let new_opponent_column := opponent_column.filter fun v => v ≠ die_value
    let new_opponent_grid := opponent_grid.setCol column_index new_opponent_column
    some ⟨new_player_grid, new_opponent_grid,
      (calculate_column_score new_player_column : Int) - player_score_before,
      (calculate_column_score new_opponent_column : Int) - opponent_score_before,
      destroyed_count, column_index⟩

end KnuckleboneEngine

/-- Face types for Alien Invasion dice (`FaceType` in `alien_invasion.py`). -/
inductive FaceType where
  | human
  | cow
  | chicken
  | death_ray
  | tank
  deriving DecidableEq

/-- The Python enum's `.value` string. -/
def FaceType.value : FaceType → String
  | FaceType.human => "human"
  | FaceType.cow => "cow"
  | FaceType.chicken => "chicken"
  | FaceType.death_ray => "death_ray"
  | FaceType.tank => "tank"

/-- Complete per-turn state (`AlienInvasionTurnState`). -/
structure AlienInvasionTurnState where
  active_dice : List Nat
  held_indices : Finset Nat
  tanks_count : Nat
  death_rays_count : Nat
  earthlings_count : Nat
  selected_types : List String
  turn_score : Nat
  roll_count : Nat
  deriving DecidableEq

/-- Scoring result (`AlienInvasionScoringResult`). -/
structure AlienInvasionScoringResult where
  earthlings_points : Nat
  diversity_bonus : Nat
  total_points : Nat
  is_bust : Bool
  is_safe_to_bank : Bool
  deriving DecidableEq

namespace AlienInvasionEngine

/-- Python `FACE_MAPPING`: face 1 is a human, 2 a cow, 3 a chicken, 4 and 5
death rays and 6 a tank; any other value has no mapping (a `KeyError` in
Python). -/
def FACE_MAPPING (v : Nat) : Option FaceType :=
  if v = 1 then some FaceType.human
  else if v = 2 then some FaceType.cow
  else if v = 3 then some FaceType.chicken
  else if v = 4 then some FaceType.death_ray
  else if v = 5 then some FaceType.death_ray
  else if v = 6 then some FaceType.tank
  else none

/-- Python `EARTHLING_TYPES`: the sub-types selectable only once per turn. -/
def EARTHLING_TYPES : List FaceType :=
  [FaceType.human, FaceType.cow, FaceType.chicken]

/-- Python `_calculate_potential_score(earthlings_count, selected_types)`:
one point per earthling plus a 3-point bonus when all three distinct
sub-type names occur in the selection log. -/
def calculate_potential_score (earthlings_count : Nat)
    (selected_types : List String) : Nat :=
  earthlings_count + (if selected_types.toFinset.card = 3 then 3 else 0)

/-- Python `AlienInvasionEngine.process_selection(state, face_type, indices)`:
tanks are not selectable, an earthling sub-type cannot be selected twice
in one turn, held indices cannot be reselected, and every index must show
the claimed face type; on success the indices are held, the
death-ray/earthling counters incremented, the sub-type log extended and
the potential turn score recomputed.  A raise is `none`. -/
def process_selection (state : AlienInvasionTurnState) (face_type : FaceType)
    (indices : List Nat) : Option AlienInvasionTurnState :=
  if face_type = FaceType.tank then none
  else if face_type ∈ EARTHLING_TYPES ∧ face_type.value ∈ state.selected_types then
    none
  else if ¬ indices.toFinset ∩ state.held_indices = ∅ then none
  else if indices.any fun i =>
      decide (state.active_dice.length ≤ i) ||
        decide (FACE_MAPPING (state.active_dice.getD i 0) ≠ some face_type) then
    none
  else
    let count := indices.length
    let new_death_rays := if face_type = FaceType.death_ray then
      state.death_rays_count + count else state.death_rays_count
    let new_earthlings := if face_type ∈ EARTHLING_TYPES then
      state.earthlings_count + count else state.earthlings_count
    let new_selected_types := if face_type ∈ EARTHLING_TYPES then
      state.selected_types ++ List.replicate count face_type.value
      else state.selected_types
    let new_score := calculate_potential_score new_earthlings new_selected_types
    some ⟨state.active_dice, state.held_indices ∪ indices.toFinset,
      state.tanks_count, new_death_rays, new_earthlings, new_selected_types,
      new_score, state.roll_count⟩

/-- Python `AlienInvasionEngine.calculate_final_score(state)`: base points are
the collected earthlings, the diversity bonus is 3 when all three
sub-types were logged, the turn busts (total forced to 0) iff there are
strictly more tanks than death rays, and banking is safe iff death rays
are at least the tanks. -/
def calculate_final_score (state : AlienInvasionTurnState) :
    AlienInvasionScoringResult :=
  let earthlings_points := state.earthlings_count
  let diversity_bonus := if state.selected_types.toFinset.card = 3 then 3 else 0
  let is_bust := decide (state.death_rays_count < state.tanks_count)
  let is_safe := decide (state.tanks_count ≤ state.death_rays_count)
  ⟨earthlings_points, diversity_bonus,
    if is_bust then 0 else earthlings_points + diversity_bonus,
    is_bust, is_safe⟩

end AlienInvasionEngine

/-! ## Helper lemmas -/

theorem GridState.getCol_setCol_same (g : GridState) (i : Nat) (hi : i < 3)
    (c : List Nat) : (g.setCol i c).getCol i = c := by
  unfold GridState.setCol GridState.getCol
  interval_cases i <;> simp

theorem GridState.getCol_setCol_other (g : GridState) (i j : Nat) (hi : i < 3)
    (hj : j < 3) (hne : j ≠ i) (c : List Nat) :
    (g.setCol i c).getCol j = g.getCol j := by
  unfold GridState.setCol GridState.getCol
  interval_cases j <;> split_ifs <;> first
    | rfl
    | omega
    | simp_all

/-! ## Claim theorems -/

/-- C4: for every Alien-Invasion turn state, `calculate_final_score`
returns `total_points = 0` and `is_bust = true` iff
`tanks_count > death_rays_count`; `is_safe_to_bank` is true iff
`death_rays_count >= tanks_count`; and when not bust the total is the
earthling count plus a bonus of 3 exactly when the selected-types log
holds 3 distinct sub-type names. -/
theorem alien_calculate_final_score_spec (s : AlienInvasionTurnState) :
    ((AlienInvasionEngine.calculate_final_score s).total_points = 0 ∧
        (AlienInvasionEngine.calculate_final_score s).is_bust = true ↔
      s.death_rays_count < s.tanks_count) ∧
    ((AlienInvasionEngine.calculate_final_score s).is_safe_to_bank = true ↔
      s.tanks_count ≤ s.death_rays_count) ∧
    ((AlienInvasionEngine.calculate_final_score s).is_bust = false →
      (AlienInvasionEngine.calculate_final_score s).total_points =
        s.earthlings_count +
          (if s.selected_types.toFinset.card = 3 then 3 else 0)) := by
  unfold AlienInvasionEngine.calculate_final_score
  by_cases h : s.death_rays_count < s.tanks_count
  · simp [h]
  · simp [h]

/-- Witness for C4: the spec's own example, tanks 5 against death rays 2
with 10 earthlings and all three sub-types collected. -/
theorem alien_calculate_final_score_spec_witness :
    ((AlienInvasionEngine.calculate_final_score
          ⟨[], ∅, 5, 2, 10, ["human", "cow", "chicken"], 0, 1⟩).total_points = 0 ∧
        (AlienInvasionEngine.calculate_final_score
          ⟨[], ∅, 5, 2, 10, ["human", "cow", "chicken"], 0, 1⟩).is_bust = true ↔
      (2 : Nat) < 5) ∧
    ((AlienInvasionEngine.calculate_final_score
          ⟨[], ∅, 5, 2, 10, ["human", "cow", "chicken"], 0, 1⟩).is_safe_to_bank = true ↔
      (5 : Nat) ≤ 2) ∧
    ((AlienInvasionEngine.calculate_final_score
          ⟨[], ∅, 5, 2, 10, ["human", "cow", "chicken"], 0, 1⟩).is_bust = false →
      (AlienInvasionEngine.calculate_final_score
          ⟨[], ∅, 5, 2, 10, ["human", "cow", "chicken"], 0, 1⟩).total_points =
        10 + (if (["human", "cow", "chicken"] : List String).toFinset.card = 3
          then 3 else 0)) :=
  alien_calculate_final_score_spec ⟨[], ∅, 5, 2, 10, ["human", "cow", "chicken"], 0, 1⟩

/-- C6: Tier BLUE — rolling a 1 returns a delta of minus the whole current
score with the reset flag; rolling a 20 returns a zero delta, the
kingmaker flag and the supplied last-place beneficiary; any face 2-19
returns the face value with no flags and no beneficiary. -/
theorem tier3_spec (current_score : Nat) (pid : Option String) (v : Nat)
    (hv : 2 ≤ v ∧ v ≤ 19) :
    AlchemistsAscentEngine.calculate_score_tier3 1 current_score none =
      (-(current_score : Int), true, false, none) ∧
    AlchemistsAscentEngine.calculate_score_tier3 20 current_score pid =
      (0, false, true, pid) ∧
    AlchemistsAscentEngine.calculate_score_tier3 v current_score none =
      ((v : Int), false, false, none) := by
  refine ⟨rfl, rfl, ?_⟩
  unfold AlchemistsAscentEngine.calculate_score_tier3
  rw [if_neg (by omega), if_neg (by omega)]

/-- Witness for C6 at the spec's example: current score 225,
beneficiary "player-last", normal face 7. -/
theorem tier3_spec_witness :
    AlchemistsAscentEngine.calculate_score_tier3 1 225 none =
      (-(225 : Int), true, false, none) ∧
    AlchemistsAscentEngine.calculate_score_tier3 20 225 (some "player-last") =
      (0, false, true, some "player-last") ∧
    AlchemistsAscentEngine.calculate_score_tier3 7 225 none =
      ((7 : Int), false, false, none) :=
  tier3_spec 225 (some "player-last") 7 (by decide)

/-- C5: for every valid Knucklebones placement, `place_die` appends the
value to the player's column, purges every matching die from the
opponent's same column preserving order, reports the number of destroyed
dice, and reports each side's delta as that column's score after minus
before. -/
theorem place_die_spec (die_value column_index : Nat) (pg og : GridState)
    (hv : 1 ≤ die_value ∧ die_value ≤ 6) (hc : column_index < 3)
    (hfull : (pg.getCol column_index).length < 3) :
    ∃ r, KnuckleboneEngine.place_die die_value column_index pg og = some r ∧
      r.player_grid.getCol column_index = pg.getCol column_index ++ [die_value] ∧
      r.opponent_grid.getCol column_index =
        (og.getCol column_index).filter (fun v => v ≠ die_value) ∧
      r.destroyed_count = (og.getCol column_index).count die_value ∧
      r.player_score_delta =
        (KnuckleboneEngine.calculate_column_score
            (pg.getCol column_index ++ [die_value]) : Int) -
          KnuckleboneEngine.calculate_column_score (pg.getCol column_index) ∧
      r.opponent_score_delta =
        (KnuckleboneEngine.calculate_column_score
            ((og.getCol column_index).filter (fun v => v ≠ die_value)) : Int) -
          KnuckleboneEngine.calculate_column_score (og.getCol column_index) := by
  unfold KnuckleboneEngine.place_die
  rw [if_neg (not_not_intro hv), if_neg (not_not_intro hc), if_neg (by omega)]
  exact ⟨_, rfl, GridState.getCol_setCol_same pg column_index hc _,
    GridState.getCol_setCol_same og column_index hc _, rfl, rfl, rfl⟩

/-- Witness for C5: the spec's example — placing a 4 against an opponent
column `(4, 4, 2)` leaves `(2,)`, destroys 2 dice and scores a −16 delta
for the opponent (the extra conjunct evaluates those concrete values). -/
theorem place_die_spec_witness :
    (∃ r, KnuckleboneEngine.place_die 4 0 ⟨[], [], []⟩ ⟨[4, 4, 2], [], []⟩ = some r ∧
      r.player_grid.getCol 0 = GridState.getCol ⟨[], [], []⟩ 0 ++ [4] ∧
      r.opponent_grid.getCol 0 =
        (GridState.getCol ⟨[4, 4, 2], [], []⟩ 0).filter (fun v => v ≠ 4) ∧
      r.destroyed_count = (GridState.getCol ⟨[4, 4, 2], [], []⟩ 0).count 4 ∧
      r.player_score_delta =
        (KnuckleboneEngine.calculate_column_score
            (GridState.getCol ⟨[], [], []⟩ 0 ++ [4]) : Int) -
          KnuckleboneEngine.calculate_column_score (GridState.getCol ⟨[], [], []⟩ 0) ∧
      r.opponent_score_delta =
        (KnuckleboneEngine.calculate_column_score
            ((GridState.getCol ⟨[4, 4, 2], [], []⟩ 0).filter (fun v => v ≠ 4)) : Int) -
          KnuckleboneEngine.calculate_column_score
            (GridState.getCol ⟨[4, 4, 2], [], []⟩ 0)) ∧
    (KnuckleboneEngine.place_die 4 0 ⟨[], [], []⟩ ⟨[4, 4, 2], [], []⟩).map
        (fun r => (r.opponent_grid.col0, r.destroyed_count, r.opponent_score_delta)) =
      some ([2], 2, -16) :=
  ⟨place_die_spec 4 0 ⟨[], [], []⟩ ⟨[4, 4, 2], [], []⟩ (by decide) (by decide)
      (by decide),
    by decide⟩

/-- C10 (frame property): for every valid placement, both returned grids
agree with the inputs on every column other than the placement column. -/
theorem place_die_frame (die_value column_index : Nat) (pg og : GridState)
    (hv : 1 ≤ die_value ∧ die_value ≤ 6) (hc : column_index < 3)
    (hfull : (pg.getCol column_index).length < 3) :
    ∃ r, KnuckleboneEngine.place_die die_value column_index pg og = some r ∧
      ∀ j, j < 3 → j ≠ column_index →
        r.player_grid.getCol j = pg.getCol j ∧
        r.opponent_grid.getCol j = og.getCol j := by
  unfold KnuckleboneEngine.place_die
  rw [if_neg (not_not_intro hv), if_neg (not_not_intro hc), if_neg (by omega)]
  exact ⟨_, rfl, fun j hj hne =>
    ⟨GridState.getCol_setCol_other pg column_index j hc hj hne _,
      GridState.getCol_setCol_other og column_index j hc hj hne _⟩⟩

/-- Witness for C10: placing a 4 into column 1 leaves columns 0 and 2 of
both grids untouched. -/
theorem place_die_frame_witness :
    ∃ r, KnuckleboneEngine.place_die 4 1 ⟨[2], [], [5]⟩ ⟨[4], [4, 4], [6]⟩ = some r ∧
      ∀ j, j < 3 → j ≠ 1 →
        r.player_grid.getCol j = GridState.getCol ⟨[2], [], [5]⟩ j ∧
        r.opponent_grid.getCol j = GridState.getCol ⟨[4], [4, 4], [6]⟩ j :=
  place_die_frame 4 1 ⟨[2], [], [5]⟩ ⟨[4], [4, 4], [6]⟩ (by decide) (by decide)
    (by decide)

/-- C1 counterexample: rerolling die 0 of `(5, 10, 15)` to an 18 is not a
bust, yet its points are `18 * 5 = 90` while the tier-2 score recomputed
over all current dice `(18, 10, 15)` is 0 — `process_reroll` does not
return the recomputed tier-2 total. -/
theorem process_reroll_counterexample :
    ∃ r, AlchemistsAscentEngine.process_reroll 0 [5, 10, 15] 18 = some r ∧
      r.is_bust = false ∧
      r.points_if_not_bust ≠
        (AlchemistsAscentEngine.calculate_score_tier2 [18, 10, 15]).points :=
  ⟨⟨5, 18, false, 90⟩, by decide, by decide, by decide⟩

/-- C1 (amended): for every in-range die index, `process_reroll` busts
(with zero points) iff `new_value <= old_value`, and on a strictly higher
new value it is not a bust and its points are the rerolled die's new value
times the tier-2 multiplier 5 (the full tier-2 recomputation over all
dice is done by the caller, not by `process_reroll`). -/
theorem process_reroll_spec (die_index : Nat) (previous_values : List Nat)
    (new_value : Nat) (hidx : die_index < previous_values.length) :
    ∃ r, AlchemistsAscentEngine.process_reroll die_index previous_values
        new_value = some r ∧
      r.old_value = previous_values.getD die_index 0 ∧
      r.new_value = new_value ∧
      (new_value ≤ r.old_value → r.is_bust = true ∧ r.points_if_not_bust = 0) ∧
      (r.old_value < new_value →
        r.is_bust = false ∧ r.points_if_not_bust = new_value * 5) := by
  unfold AlchemistsAscentEngine.process_reroll
  rw [List.getElem?_eq_getElem hidx]
  refine ⟨_, rfl, ?_, rfl, ?_, ?_⟩
  · rw [List.getD_eq_getElem?_getD, List.getElem?_eq_getElem hidx]
    rfl
  · intro h
    simp [h]
  · intro h
    simp [Nat.not_le_of_lt h]

/-- Witness for C1: the spec's Tier-GREEN examples — rerolling a 15 to a
10 busts, rerolling a 5 to a 10 does not. -/
theorem process_reroll_spec_witness :
    (∃ r, AlchemistsAscentEngine.process_reroll 0 [15, 10, 5] 10 = some r ∧
      r.old_value = List.getD [15, 10, 5] 0 0 ∧
      r.new_value = 10 ∧
      (10 ≤ r.old_value → r.is_bust = true ∧ r.points_if_not_bust = 0) ∧
      (r.old_value < 10 →
        r.is_bust = false ∧ r.points_if_not_bust = 10 * 5)) ∧
    (∃ r, AlchemistsAscentEngine.process_reroll 0 [5, 10, 15] 10 = some r ∧
      r.old_value = List.getD [5, 10, 15] 0 0 ∧
      r.new_value = 10 ∧
      (10 ≤ r.old_value → r.is_bust = true ∧ r.points_if_not_bust = 0) ∧
      (r.old_value < 10 →
        r.is_bust = false ∧ r.points_if_not_bust = 10 * 5)) :=
  ⟨process_reroll_spec 0 [15, 10, 5] 10 (by decide),
    process_reroll_spec 0 [5, 10, 15] 10 (by decide)⟩

/-- C2 counterexample: the roll `(1, 2, 2, 3, 3, 4)` from a fresh turn is
not a bust and its scoring index set is `{0}`, yet `process_roll` returns
a state whose held indices are empty — scoring dice are not auto-held. -/
theorem pg_process_roll_counterexample :
    (PeasantsGambleEngine.calculate_score [1, 2, 2, 3, 3, 4]).is_bust = false ∧
    (PeasantsGambleEngine.calculate_score
        [1, 2, 2, 3, 3, 4]).scoring_dice_indices ≠ ∅ ∧
    (PeasantsGambleEngine.process_roll PeasantsGambleEngine.create_initial_turn_state
          [1, 2, 2, 3, 3, 4]).1.held_indices ≠
      (PeasantsGambleEngine.calculate_score
          [1, 2, 2, 3, 3, 4]).scoring_dice_indices := by
  decide

/-- C2 (amended): for every turn state and injected roll, a non-bust roll
leaves the accumulated turn score unchanged and resets the held-index set
to empty (scoring indices are only reported in the `ScoringResult`; they
are not auto-held), while a bust roll zeroes the turn score and clears
the held indices; the returned result is the roll's score. -/
theorem pg_process_roll_spec (state : TurnState) (roll : List Nat)
    (hroll : validDice 6 roll) :
    ((PeasantsGambleEngine.calculate_score roll).is_bust = false →
      (PeasantsGambleEngine.process_roll state roll).1.held_indices = ∅ ∧
      (PeasantsGambleEngine.process_roll state roll).1.turn_score =
        state.turn_score) ∧
    ((PeasantsGambleEngine.calculate_score roll).is_bust = true →
      (PeasantsGambleEngine.process_roll state roll).1.turn_score = 0 ∧
      (PeasantsGambleEngine.process_roll state roll).1.held_indices = ∅) ∧
    (PeasantsGambleEngine.process_roll state roll).2 =
      PeasantsGambleEngine.calculate_score roll := by
  unfold PeasantsGambleEngine.process_roll
  by_cases h : (PeasantsGambleEngine.calculate_score roll).is_bust
  · simp [h]
  · simp [h]

/-- Witness for C2: the fresh-turn full straight roll of the repository's
own test (`test_process_roll_updates_state`). -/
theorem pg_process_roll_spec_witness :
    ((PeasantsGambleEngine.calculate_score [1, 2, 3, 4, 5, 6]).is_bust = false →
      (PeasantsGambleEngine.process_roll
          PeasantsGambleEngine.create_initial_turn_state
          [1, 2, 3, 4, 5, 6]).1.held_indices = ∅ ∧
      (PeasantsGambleEngine.process_roll
          PeasantsGambleEngine.create_initial_turn_state
          [1, 2, 3, 4, 5, 6]).1.turn_score =
        PeasantsGambleEngine.create_initial_turn_state.turn_score) ∧
    ((PeasantsGambleEngine.calculate_score [1, 2, 3, 4, 5, 6]).is_bust = true →
      (PeasantsGambleEngine.process_roll
          PeasantsGambleEngine.create_initial_turn_state
          [1, 2, 3, 4, 5, 6]).1.turn_score = 0 ∧
      (PeasantsGambleEngine.process_roll
          PeasantsGambleEngine.create_initial_turn_state
          [1, 2, 3, 4, 5, 6]).1.held_indices = ∅) ∧
    (PeasantsGambleEngine.process_roll
        PeasantsGambleEngine.create_initial_turn_state
        [1, 2, 3, 4, 5, 6]).2 =
      PeasantsGambleEngine.calculate_score [1, 2, 3, 4, 5, 6] :=
  pg_process_roll_spec PeasantsGambleEngine.create_initial_turn_state
    [1, 2, 3, 4, 5, 6] (by decide)

/-- C8: `process_selection` fails whenever the claimed type is a tank, or
the claimed earthling sub-type already appears in the turn's
selected-types log, or a selected index is already held, or some in-range
selected index's face does not map to the claimed type; it succeeds when
none of those hold and every index is in range with the claimed face. -/
theorem alien_process_selection_spec (s : AlienInvasionTurnState)
    (face_type : FaceType) (indices : List Nat) :
    ((face_type = FaceType.tank ∨
        (face_type ∈ AlienInvasionEngine.EARTHLING_TYPES ∧
          face_type.value ∈ s.selected_types) ∨
        (∃ i ∈ indices, i ∈ s.held_indices) ∨
        (∃ i ∈ indices, i < s.active_dice.length ∧
          AlienInvasionEngine.FACE_MAPPING (s.active_dice.getD i 0) ≠
            some face_type)) →
      AlienInvasionEngine.process_selection s face_type indices = none) ∧
    ((face_type ≠ FaceType.tank ∧
        ¬ (face_type ∈ AlienInvasionEngine.EARTHLING_TYPES ∧
          face_type.value ∈ s.selected_types) ∧
        (∀ i ∈ indices, i ∉ s.held_indices) ∧
        (∀ i ∈ indices, i < s.active_dice.length ∧
          AlienInvasionEngine.FACE_MAPPING (s.active_dice.getD i 0) =
            some face_type)) →
      (AlienInvasionEngine.process_selection s face_type indices).isSome = true) := by
  constructor
  · intro h
    rcases h with h | h | ⟨i, hi, hheld⟩ | ⟨i, hi, hrange, hface⟩
    · simp [AlienInvasionEngine.process_selection, h]
    · have h1 : face_type ≠ FaceType.tank := fun he => by
        rw [he] at h
        exact absurd h.1 (by decide)
      simp [AlienInvasionEngine.process_selection, h1, h]
    · by_cases h1 : face_type = FaceType.tank
      · simp [AlienInvasionEngine.process_selection, h1]
      · by_cases h2 : face_type ∈ AlienInvasionEngine.EARTHLING_TYPES ∧
            face_type.value ∈ s.selected_types
        · simp [AlienInvasionEngine.process_selection, h1, h2]
        · have h3 : ¬ indices.toFinset ∩ s.held_indices = ∅ := fun hemp => by
            have hmem : i ∈ indices.toFinset ∩ s.held_indices :=
              Finset.mem_inter.mpr ⟨List.mem_toFinset.mpr hi, hheld⟩
            rw [hemp] at hmem
            exact Finset.not_mem_empty i hmem
          simp [AlienInvasionEngine.process_selection, h1, h2, h3]
    · by_cases h1 : face_type = FaceType.tank
      · simp [AlienInvasionEngine.process_selection, h1]
      · by_cases h2 : face_type ∈ AlienInvasionEngine.EARTHLING_TYPES ∧
            face_type.value ∈ s.selected_types
        · simp [AlienInvasionEngine.process_selection, h1, h2]
        · by_cases h3 : indices.toFinset ∩ s.held_indices = ∅
          · have h4 : (indices.any fun i =>
                decide (s.active_dice.length ≤ i) ||
                  decide (AlienInvasionEngine.FACE_MAPPING
                    (s.active_dice.getD i 0) ≠ some face_type)) = true :=
              List.any_eq_true.mpr ⟨i, hi, by
                simp only [Bool.or_eq_true, decide_eq_true_eq]
                exact Or.inr hface⟩
            unfold AlienInvasionEngine.process_selection
            rw [if_neg h1, if_neg h2, if_neg (not_not_intro h3), if_pos h4]
          · simp [AlienInvasionEngine.process_selection, h1, h2, h3]
  · rintro ⟨htank, hsel, hheld, hface⟩
    have h3 : indices.toFinset ∩ s.held_indices = ∅ := by
      rw [Finset.eq_empty_iff_forall_not_mem]
      intro i hmem
      rw [Finset.mem_inter, List.mem_toFinset] at hmem
      exact hheld i hmem.1 hmem.2
    have h4 : ¬ (indices.any fun i =>
        decide (s.active_dice.length ≤ i) ||
          decide (AlienInvasionEngine.FACE_MAPPING
            (s.active_dice.getD i 0) ≠ some face_type)) = true := by
      intro hany
      rcases List.any_eq_true.mp hany with ⟨i, hi, hb⟩
      simp only [Bool.or_eq_true, decide_eq_true_eq] at hb
      rcases hb with hb | hb
      · exact absurd hb (Nat.not_le_of_lt (hface i hi).1)
      · exact absurd (hface i hi).2 hb
    unfold AlienInvasionEngine.process_selection
    rw [if_neg htank, if_neg hsel, if_neg (not_not_intro h3), if_neg h4]
    rfl

/-- Witness for C8: selecting the two human dice of `(1, 1, 6, 4)` on a
fresh turn succeeds. -/
theorem alien_process_selection_spec_witness :
    (AlienInvasionEngine.process_selection ⟨[1, 1, 6, 4], ∅, 1, 0, 0, [], 0, 1⟩
        FaceType.human [0, 1]).isSome = true :=
  (alien_process_selection_spec ⟨[1, 1, 6, 4], ∅, 1, 0, 0, [], 0, 1⟩
      FaceType.human [0, 1]).2
    ⟨by decide, by decide, by decide, by decide⟩

/-! ## Peasant's Gamble scoring-pass lemmas -/

theorem pg_find_value_aux_subset (vals : List Nat) (start target cnt : Nat)
    (exclude : Finset Nat) (found : Nat) (acc : Finset Nat) :
    acc ⊆ PeasantsGambleEngine.find_value_aux vals start target cnt exclude found acc := by
  induction vals generalizing start found acc with
  | nil => exact Finset.Subset.refl acc
  | cons v rest ih =>
    unfold PeasantsGambleEngine.find_value_aux
    split
    · exact Finset.Subset.trans (Finset.subset_insert start acc) (ih _ _ _)
    · exact ih _ _ _

theorem pg_find_value_aux_nonempty (vals : List Nat) (start target cnt : Nat)
    (exclude : Finset Nat) (found : Nat) (acc : Finset Nat)
    (hw : ∃ k, k < vals.length ∧ vals.getD k 0 = target ∧ (start + k) ∉ exclude)
    (hfound : found < cnt) :
    (PeasantsGambleEngine.find_value_aux vals start target cnt exclude found
      acc).Nonempty := by
  induction vals generalizing start found acc with
  | nil =>
    rcases hw with ⟨k, hk, _⟩
    exact absurd hk (by simp)
  | cons v rest ih =>
    unfold PeasantsGambleEngine.find_value_aux
    split
    · exact ⟨start, pg_find_value_aux_subset rest (start + 1) target cnt exclude
        (found + 1) (insert start acc) (Finset.mem_insert_self start acc)⟩
    · rename_i hcond
      rcases hw with ⟨k, hk, hval, hex⟩
      match k, hk, hval, hex with
      | 0, hk, hval, hex =>
        exact absurd ⟨hval, by simpa using hex, hfound⟩ hcond
      | k + 1, hk, hval, hex =>
        refine ih (start + 1) found acc ⟨k, ?_, ?_, ?_⟩ hfound
        · simpa using Nat.lt_of_succ_lt_succ hk
        · simpa using hval
        · have : start + 1 + k = start + (k + 1) := by omega
          rw [this]
          exact hex

theorem pg_find_indices_nonempty (values : List Nat) (target cnt : Nat)
    (hcnt : 0 < cnt) (hcount : 0 < values.count target) :
    (PeasantsGambleEngine.find_indices_for_value values target cnt ∅).Nonempty := by
  have hmem : target ∈ values := List.count_pos_iff.mp hcount
  rcases List.mem_iff_getElem.mp hmem with ⟨k, hk, hval⟩
  refine pg_find_value_aux_nonempty values 0 target cnt ∅ 0 ∅ ⟨k, hk, ?_, ?_⟩ hcnt
  · rw [List.getD_eq_getElem _ _ hk]
    exact hval
  · simp

theorem pg_check_straights_some (values : List Nat) (r : Nat → Nat)
    (p : ScoringBreakdown × Finset Nat)
    (hp : (PeasantsGambleEngine.check_straights values r).1 = some p) :
    p.2.Nonempty ∧ 0 < p.1.points := by
  unfold PeasantsGambleEngine.check_straights at hp
  split_ifs at hp with h1 h2 h3
  · cases hp
    exact ⟨⟨0, by simp⟩, by simp⟩
  · cases hp
    refine ⟨Finset.card_pos.mp ?_, by simp⟩
    rw [h2.2]
    omega
  · cases hp
    refine ⟨Finset.card_pos.mp ?_, by simp⟩
    rw [h3.2]
    omega

theorem pg_check_straights_le (values : List Nat) (r : Nat → Nat) (v : Nat) :
    (PeasantsGambleEngine.check_straights values r).2 v ≤ r v := by
  unfold PeasantsGambleEngine.check_straights
  split_ifs <;> dsimp only <;> (try split) <;> omega

theorem pg_check_sets_le (values : List Nat) (faces : List Nat) (r : Nat → Nat)
    (v : Nat) :
    (PeasantsGambleEngine.check_sets values faces r).2.2 v ≤ r v := by
  induction faces generalizing r with
  | nil => exact le_rfl
  | cons f rest ih =>
    unfold PeasantsGambleEngine.check_sets
    dsimp only
    by_cases hc : 3 ≤ r f
    · rw [if_pos hc]
      refine le_trans (ih _) ?_
      by_cases hv : v = f
      · simp [hv]
      · simp [hv]
    · rw [if_neg hc]
      exact ih r

theorem pg_check_sets_iff (values : List Nat) (faces : List Nat) (r : Nat → Nat)
    (hface : ∀ f ∈ faces, 0 < f) (hr : ∀ v, r v ≤ values.count v) :
    ((PeasantsGambleEngine.check_sets values faces r).1 = [] ↔
      (PeasantsGambleEngine.check_sets values faces r).2.1 = ∅) ∧
    (∀ b ∈ (PeasantsGambleEngine.check_sets values faces r).1, 0 < b.points) := by
  induction faces generalizing r with
  | nil => simp [PeasantsGambleEngine.check_sets]
  | cons f rest ih =>
    have hr' : ∀ v, (fun v => if v = f then 0 else r v) v ≤ values.count v := by
      intro v
      by_cases hv : v = f
      · simp [hv]
      · simpa [hv] using hr v
    have hface' : ∀ g ∈ rest, 0 < g := fun g hg => hface g (List.mem_cons_of_mem f hg)
    by_cases hc : 3 ≤ r f
    · have hidx : (PeasantsGambleEngine.find_indices_for_value values f (r f)
          ∅).Nonempty :=
        pg_find_indices_nonempty values f (r f) (by omega)
          (by have := hr f; omega)
      rcases ih (fun v => if v = f then 0 else r v) hface' hr' with ⟨_, hpos⟩
      unfold PeasantsGambleEngine.check_sets
      dsimp only
      rw [if_pos hc]
      refine ⟨?_, ?_⟩
      · simp only [List.cons_ne_nil, false_iff]
        intro hemp
        rcases Finset.union_eq_empty.mp hemp with ⟨hfi, _⟩
        rw [hfi] at hidx
        exact Finset.not_nonempty_empty hidx
      · intro b hb
        rcases List.mem_cons.mp hb with hb | hb
        · have hfpos : 0 < f := hface f (List.mem_cons_self f rest)
          subst hb
          simp only
          by_cases h1 : f = 1
          · simp [h1]
          · have : 0 < f * 100 := by omega
            simp only [if_neg h1]
            positivity
        · exact hpos b hb
    · unfold PeasantsGambleEngine.check_sets
      dsimp only
      rw [if_neg hc]
      exact ih r hface' hr

theorem pg_check_singles_iff (values : List Nat) (r : Nat → Nat)
    (hr : ∀ v, r v ≤ values.count v) :
    ((PeasantsGambleEngine.check_singles values r).1 = [] ↔
      (PeasantsGambleEngine.check_singles values r).2 = ∅) ∧
    (∀ b ∈ (PeasantsGambleEngine.check_singles values r).1, 0 < b.points) := by
  unfold PeasantsGambleEngine.check_singles
  have hone : 0 < r 1 → (PeasantsGambleEngine.find_indices_for_value values 1 (r 1)
      ∅).Nonempty := fun h1 =>
    pg_find_indices_nonempty values 1 (r 1) h1 (by have := hr 1; omega)
  have hfive : 0 < r 5 → (PeasantsGambleEngine.find_indices_for_value values 5 (r 5)
      ∅).Nonempty := fun h5 =>
    pg_find_indices_nonempty values 5 (r 5) h5 (by have := hr 5; omega)
  by_cases h1 : 0 < r 1 <;> by_cases h5 : 0 < r 5 <;>
    simp only [if_pos, if_neg, h1, h5, if_true, if_false]
  · refine ⟨iff_of_false (by simp) fun hemp => ?_, fun b hb => ?_⟩
    · rcases Finset.union_eq_empty.mp hemp with ⟨hfi, _⟩
      rw [hfi] at hone
      exact Finset.not_nonempty_empty (hone h1)
    · rcases List.mem_append.mp hb with hb | hb <;>
        rcases List.mem_singleton.mp hb with rfl <;> simp <;> omega
  · refine ⟨iff_of_false (by simp) fun hemp => ?_, fun b hb => ?_⟩
    · rcases Finset.union_eq_empty.mp hemp with ⟨hfi, _⟩
      rw [hfi] at hone
      exact Finset.not_nonempty_empty (hone h1)
    · rw [List.append_nil] at hb
      rcases List.mem_singleton.mp hb with rfl
      simp
      omega
  · refine ⟨iff_of_false (by simp) fun hemp => ?_, fun b hb => ?_⟩
    · rcases Finset.union_eq_empty.mp hemp with ⟨_, hfi⟩
      rw [hfi] at hfive
      exact Finset.not_nonempty_empty (hfive h5)
    · rw [List.nil_append] at hb
      rcases List.mem_singleton.mp hb with rfl
      simp
      omega
  · simp

theorem pg_assemble_zero_iff (L1 L2 L3 : List ScoringBreakdown)
    (I1 I2 I3 : Finset Nat)
    (h1 : L1 = [] ↔ I1 = ∅) (h2 : L2 = [] ↔ I2 = ∅) (h3 : L3 = [] ↔ I3 = ∅)
    (hp1 : ∀ b ∈ L1, 0 < b.points) (hp2 : ∀ b ∈ L2, 0 < b.points)
    (hp3 : ∀ b ∈ L3, 0 < b.points) :
    (((L1 ++ L2 ++ L3).map fun b => b.points).sum = 0 ↔
      ((I1 ∪ I2 ∪ I3).card == 0) = true) := by
  rw [beq_iff_eq, Finset.card_eq_zero, Finset.union_eq_empty, Finset.union_eq_empty]
  constructor
  · intro h
    have hall : ∀ b ∈ L1 ++ L2 ++ L3, b.points = 0 := by
      rw [List.sum_eq_zero_iff] at h
      exact fun b hb => h b.points (List.mem_map.mpr ⟨b, hb, rfl⟩)
    have e1 : L1 = [] := by
      cases hL : L1 with
      | nil => rfl
      | cons b t =>
        have hz := hall b (by simp [hL])
        have hpos := hp1 b (by simp [hL])
        omega
    have e2 : L2 = [] := by
      cases hL : L2 with
      | nil => rfl
      | cons b t =>
        have hz := hall b (by simp [hL])
        have hpos := hp2 b (by simp [hL])
        omega
    have e3 : L3 = [] := by
      cases hL : L3 with
      | nil => rfl
      | cons b t =>
        have hz := hall b (by simp [hL])
        have hpos := hp3 b (by simp [hL])
        omega
    exact ⟨⟨h1.mp e1, h2.mp e2⟩, h3.mp e3⟩
  · rintro ⟨⟨e1, e2⟩, e3⟩
    rw [h1.mpr e1, h2.mpr e2, h3.mpr e3]
    simp

theorem pg_points_zero_iff_bust (values : List Nat) :
    ((PeasantsGambleEngine.calculate_score values).points = 0 ↔
      (PeasantsGambleEngine.calculate_score values).is_bust = true) := by
  by_cases hnil : values = []
  · simp [PeasantsGambleEngine.calculate_score, hnil]
  · have hr1 : ∀ v, (PeasantsGambleEngine.check_straights values
        (PeasantsGambleEngine.countOf values)).2 v ≤ values.count v :=
      fun v => pg_check_straights_le values _ v
    have hr2 : ∀ v, (PeasantsGambleEngine.check_sets values [1, 2, 3, 4, 5, 6]
        (PeasantsGambleEngine.check_straights values
          (PeasantsGambleEngine.countOf values)).2).2.2 v ≤ values.count v :=
      fun v => le_trans (pg_check_sets_le values _ _ v) (hr1 v)
    obtain ⟨hsets_iff, hsets_pos⟩ :=
      pg_check_sets_iff values [1, 2, 3, 4, 5, 6]
        (PeasantsGambleEngine.check_straights values
          (PeasantsGambleEngine.countOf values)).2 (by decide) hr1
    obtain ⟨hsing_iff, hsing_pos⟩ :=
      pg_check_singles_iff values
        (PeasantsGambleEngine.check_sets values [1, 2, 3, 4, 5, 6]
          (PeasantsGambleEngine.check_straights values
            (PeasantsGambleEngine.countOf values)).2).2.2 hr2
    cases hs : (PeasantsGambleEngine.check_straights values
        (PeasantsGambleEngine.countOf values)).1 with
    | none =>
      simp only [PeasantsGambleEngine.calculate_score, if_neg hnil, hs]
      exact pg_assemble_zero_iff [] _ _ ∅ _ _ (by simp) hsets_iff hsing_iff
        (by simp) hsets_pos hsing_pos
    | some p =>
      obtain ⟨hne, hpos⟩ := pg_check_straights_some values _ p hs
      simp only [PeasantsGambleEngine.calculate_score, if_neg hnil, hs]
      refine pg_assemble_zero_iff [p.1] _ _ p.2 _ _
        (iff_of_false (by simp) ?_) hsets_iff hsing_iff ?_ hsets_pos hsing_pos
      · intro hemp
        rw [hemp] at hne
        exact Finset.not_nonempty_empty hne
      · intro b hb
        rcases List.mem_singleton.mp hb with rfl
        exact hpos

/-- C7: for every valid D6 roll, the total equals the sum of the
breakdown lines' points, and the roll busts iff the scoring-index set is
empty. -/
theorem pg_calculate_score_invariants (roll : List Nat) (hroll : validDice 6 roll) :
    (PeasantsGambleEngine.calculate_score roll).points =
      ((PeasantsGambleEngine.calculate_score roll).breakdown.map
        fun b => b.points).sum ∧
    ((PeasantsGambleEngine.calculate_score roll).is_bust = true ↔
      (PeasantsGambleEngine.calculate_score roll).scoring_dice_indices = ∅) := by
  by_cases h : roll = []
  · simp [PeasantsGambleEngine.calculate_score, h]
  · refine ⟨?_, ?_⟩ <;> simp only [PeasantsGambleEngine.calculate_score, if_neg h]
    rw [beq_iff_eq, Finset.card_eq_zero]

/-- Witness for C7 at the roll `(1, 5, 2)`. -/
theorem pg_calculate_score_invariants_witness :
    (PeasantsGambleEngine.calculate_score [1, 5, 2]).points =
      ((PeasantsGambleEngine.calculate_score [1, 5, 2]).breakdown.map
        fun b => b.points).sum ∧
    ((PeasantsGambleEngine.calculate_score [1, 5, 2]).is_bust = true ↔
      (PeasantsGambleEngine.calculate_score [1, 5, 2]).scoring_dice_indices = ∅) :=
  pg_calculate_score_invariants [1, 5, 2] (by decide)

/-- C9: `process_hold` (on a state with valid dice and in-range selected
indices) raises exactly when the combined values of the selected dice
score zero as a roll; on success every selected index becomes held —
scoring or not — and the turn score increases by the score of the
selected values as a whole. -/
theorem pg_process_hold_spec (state : TurnState) (indices : Finset Nat)
    (hval : validDice 6 state.active_dice)
    (hidx : ∀ i ∈ indices, i < state.active_dice.length) :
    (PeasantsGambleEngine.process_hold state indices = none ↔
      (PeasantsGambleEngine.calculate_score
        (PeasantsGambleEngine.held_values state indices)).points = 0) ∧
    (∀ st res, PeasantsGambleEngine.process_hold state indices = some (st, res) →
      res = PeasantsGambleEngine.calculate_score
        (PeasantsGambleEngine.held_values state indices) ∧
      st.held_indices = state.held_indices ∪ indices ∧
      st.turn_score = state.turn_score + res.points) := by
  have hzero := pg_points_zero_iff_bust
    (PeasantsGambleEngine.held_values state indices)
  unfold PeasantsGambleEngine.process_hold
  rw [if_neg (not_not_intro hidx)]
  by_cases hb : (PeasantsGambleEngine.calculate_score
      (PeasantsGambleEngine.held_values state indices)).is_bust
  · rw [if_pos hb]
    refine ⟨iff_of_true rfl (hzero.mpr hb), ?_⟩
    intro st res h
    cases h
  · rw [if_neg hb]
    refine ⟨iff_of_false (by simp) fun hp => hb (hzero.mp hp), ?_⟩
    intro st res h
    simp only [Option.some_inj, Prod.mk.injEq] at h
    obtain ⟨hst, hres⟩ := h
    subst hst
    subst hres
    exact ⟨rfl, rfl, rfl⟩

/-- Witness for C9: holding a scoring 5 together with a non-scoring 2 is
accepted, both indices are held, and the turn score rises by 50. -/
theorem pg_process_hold_spec_witness :
    (PeasantsGambleEngine.process_hold ⟨[5, 2], ∅, 0, 1, false, Tier.red, []⟩
        {0, 1} = none ↔
      (PeasantsGambleEngine.calculate_score
        (PeasantsGambleEngine.held_values ⟨[5, 2], ∅, 0, 1, false, Tier.red, []⟩
          {0, 1})).points = 0) ∧
    (∀ st res, PeasantsGambleEngine.process_hold
        ⟨[5, 2], ∅, 0, 1, false, Tier.red, []⟩ {0, 1} = some (st, res) →
      res = PeasantsGambleEngine.calculate_score
        (PeasantsGambleEngine.held_values ⟨[5, 2], ∅, 0, 1, false, Tier.red, []⟩
          {0, 1}) ∧
      st.held_indices = TurnState.held_indices
          ⟨[5, 2], ∅, 0, 1, false, Tier.red, []⟩ ∪ {0, 1} ∧
      st.turn_score = TurnState.turn_score
          ⟨[5, 2], ∅, 0, 1, false, Tier.red, []⟩ + res.points) :=
  pg_process_hold_spec ⟨[5, 2], ∅, 0, 1, false, Tier.red, []⟩ {0, 1}
    (by decide) (by decide)

theorem pg_check_sets_mem_line (values : List Nat) (faces : List Nat)
    (r : Nat → Nat) (f : Nat) (hnd : faces.Nodup) (hmem : f ∈ faces)
    (hc : 3 ≤ r f) :
    (⟨PeasantsGambleEngine.setCategory (r f), List.replicate (r f) f,
        (if f = 1 then 1000 else f * 100) * 2 ^ (r f - 3),
        toString (r f) ++ "x " ++ toString f ++ "s"⟩ : ScoringBreakdown) ∈
      (PeasantsGambleEngine.check_sets values faces r).1 := by
  induction faces generalizing r with
  | nil => cases hmem
  | cons g rest ih =>
    rcases List.mem_cons.mp hmem with heq | hmemr
    · subst heq
      unfold PeasantsGambleEngine.check_sets
      dsimp only
      rw [if_pos hc]
      exact List.mem_cons.mpr (Or.inl rfl)
    · have hg : g ≠ f := by
        intro h
        rw [h] at hnd
        exact (List.nodup_cons.mp hnd).1 hmemr
      have hfg : (if f = g then 0 else r f) = r f := if_neg fun h => hg h.symm
      by_cases hcg : 3 ≤ r g
      · unfold PeasantsGambleEngine.check_sets
        dsimp only
        rw [if_pos hcg]
        refine List.mem_cons.mpr (Or.inr ?_)
        have := ih (fun v => if v = g then 0 else r v)
          (List.nodup_cons.mp hnd).2 hmemr (by simpa [hfg] using hc)
        simpa [hfg] using this
      · unfold PeasantsGambleEngine.check_sets
        dsimp only
        rw [if_neg hcg]
        exact ih r (List.nodup_cons.mp hnd).2 hmemr hc

/-- C3: for every valid D6 roll in which face `f` appears `N >= 3` times
and the straight pass consumes none of those dice, the breakdown holds an
N-of-a-kind line for `f` worth `base * 2^(N-3)` with `base = 1000` for
face 1 and `f * 100` otherwise; and the roll `(1,1,1,1,1,1)` scores
exactly 8000 in total. -/
theorem pg_n_of_a_kind (values : List Nat) (f : Nat) (hval : validDice 6 values)
    (hf : 1 ≤ f ∧ f ≤ 6) (hN : 3 ≤ values.count f)
    (hstraight : (PeasantsGambleEngine.check_straights values
        (PeasantsGambleEngine.countOf values)).2 f = values.count f) :
    (∃ b ∈ (PeasantsGambleEngine.calculate_score values).breakdown,
      b.points = (if f = 1 then 1000 else f * 100) * 2 ^ (values.count f - 3) ∧
      b.dice_values = List.replicate (values.count f) f) ∧
    (PeasantsGambleEngine.calculate_score [1, 1, 1, 1, 1, 1]).points = 8000 := by
  refine ⟨?_, by decide⟩
  have hnil : values ≠ [] := by
    intro h
    rw [h] at hN
    simp at hN
  have hfmem : f ∈ [1, 2, 3, 4, 5, 6] := by
    rcases hf with ⟨h1, h6⟩
    interval_cases f <;> simp
  have hline := pg_check_sets_mem_line values [1, 2, 3, 4, 5, 6]
    (PeasantsGambleEngine.check_straights values
      (PeasantsGambleEngine.countOf values)).2 f (by decide) hfmem
    (by rw [hstraight]; exact hN)
  rw [hstraight] at hline
  refine ⟨⟨PeasantsGambleEngine.setCategory (values.count f),
    List.replicate (values.count f) f,
    (if f = 1 then 1000 else f * 100) * 2 ^ (values.count f - 3),
    toString (values.count f) ++ "x " ++ toString f ++ "s"⟩, ?_, rfl, rfl⟩
  simp only [PeasantsGambleEngine.calculate_score, if_neg hnil]
  refine List.mem_append.mpr (Or.inl (List.mem_append.mpr (Or.inr ?_)))
  exact hline

/-- Witness for C3: the roll `(2, 2, 2, 5, 3, 3)` holds a
three-of-a-kind line for face 2 worth 200; no straight exists in it. -/
theorem pg_n_of_a_kind_witness :
    (∃ b ∈ (PeasantsGambleEngine.calculate_score [2, 2, 2, 5, 3, 3]).breakdown,
      b.points = (if 2 = 1 then 1000 else 2 * 100) *
        2 ^ (List.count 2 [2, 2, 2, 5, 3, 3] - 3) ∧
      b.dice_values = List.replicate (List.count 2 [2, 2, 2, 5, 3, 3]) 2) ∧
    (PeasantsGambleEngine.calculate_score [1, 1, 1, 1, 1, 1]).points = 8000 :=
  pg_n_of_a_kind [2, 2, 2, 5, 3, 3] 2 (by decide) (by decide) (by decide)
    (by decide)
